import Mathlib

/-!
Verification of the TCP loan-calculator / key-value server
(`TCP_loan_server.py`): wire framing, JSON codec, shared store,
command dispatcher and connection-handler loop, shallowly embedded in
Lean.  JSON values decoded by `json.loads` are modelled by the mutual
inductive `JVal`/`JArr`/`JObj`; numbers are modelled as exact decimals
`m / 10^e` (`e = 0` corresponding to a Python `int`, `e > 0` to a
`float` printed in plain decimal form) and real arithmetic is modelled
exactly over `ℚ`.  Byte streams are `List Nat`; the UTF-8 layer is
modelled on its ASCII fragment (a byte `≥ 128` is treated as a decode
failure), which is the fragment exercised by every statement below.
-/

mutual

/-- A JSON value as produced by `json.loads` / consumed by `json.dumps`.
`num m e` denotes the decimal number `m / 10^e`. -/
inductive JVal : Type where
  | null : JVal
  | bool : Bool → JVal
  | num : Int → Nat → JVal
  | str : String → JVal
  | arr : JArr → JVal
  | obj : JObj → JVal

/-- Spine of a JSON array. -/
inductive JArr : Type where
  | nil : JArr
  | cons : JVal → JArr → JArr

/-- Spine of a JSON object (field list, textual order). -/
inductive JObj : Type where
  | nil : JObj
  | cons : String → JVal → JObj → JObj

end

mutual

/-- Node count of a JSON value (used as parser fuel bound). -/
def jsize : JVal → Nat
  | .null => 1
  | .bool _ => 1
  | .num _ _ => 1
  | .str _ => 1
  | .arr l => 1 + jarrSize l
  | .obj l => 1 + jobjSize l

/-- Node count of an array spine. -/
def jarrSize : JArr → Nat
  | .nil => 0
  | .cons v l => 1 + jsize v + jarrSize l

/-- Node count of an object spine. -/
def jobjSize : JObj → Nat
  | .nil => 0
  | .cons _ v l => 1 + jsize v + jobjSize l

end

/-- Python truthiness of a decoded JSON value (`bool(x)`). -/
def truthy : JVal → Bool
  | .null => false
  | .bool b => b
  | .num m _ => decide (m ≠ 0)
  | .str s => decide (s ≠ "")
  | .arr .nil => false
  | .arr (.cons _ _) => true
  | .obj .nil => false
  | .obj (.cons _ _ _) => true

/-- Whether a decoded JSON value is Python `None`. -/
def isNull : JVal → Bool
  | .null => true
  | _ => false

/-- `d.get(key)` on a decoded JSON object (objects produced by
`json.loads` have pairwise-distinct keys, so first match = dict lookup). -/
def jGet : JObj → String → Option JVal
  | .nil, _ => none
  | .cons k v rest, key => if k = key then some v else jGet rest key

/-- `key in d` on a decoded JSON object. -/
def jHasKey : JObj → String → Bool
  | .nil, _ => false
  | .cons k _ rest, key => if k = key then true else jHasKey rest key

/-- Python type name of a decoded JSON value, as used in runtime
error messages (`int` for `num _ 0`, `float` otherwise). -/
def typeName : JVal → String
  | .null => "NoneType"
  | .bool _ => "bool"
  | .num _ 0 => "int"
  | .num _ _ => "float"
  | .str _ => "str"
  | .arr _ => "list"
  | .obj _ => "dict"

/-! ## Shared store (`KVStore`, lines 63-92)

The Python store is a `dict`; we model it as an insertion-ordered
association list with distinct keys maintained by the operations
(assignment updates in place, `pop` removes the binding). -/

/-- The shared store state (`KVStore._data`). -/
def Store := List (String × JVal)

/-- `self._data.get`/`in`/indexing: lookup in the store. -/
def storeLookup : Store → String → Option JVal
  | [], _ => none
  | (k0, v0) :: rest, k => if k0 = k then some v0 else storeLookup rest k

/-- `self._data[key] = value`: update in place, else append. -/
def storeSet : Store → String → JVal → Store
  | [], k, v => [(k, v)]
  | (k0, v0) :: rest, k, v =>
      if k0 = k then (k, v) :: rest else (k0, v0) :: storeSet rest k v

/-- `self._data.pop(key, None)`, store part: remove the binding if present. -/
def storeErase : Store → String → Store
  | [], _ => []
  | (k0, v0) :: rest, k => if k0 = k then rest else (k0, v0) :: storeErase rest k

/-- Response `{"ok": true}`. -/
def okResp : JVal := .obj (.cons "ok" (.bool true) .nil)

/-- Response `{"ok": false, "error": msg}`. -/
def errResp (msg : String) : JVal :=
  .obj (.cons "ok" (.bool false) (.cons "error" (.str msg) .nil))

/-- `KVStore.set` (lines 69-72). -/
def KVStore.set (s : Store) (key : String) (value : JVal) : Store × JVal :=
  (storeSet s key value, okResp)

/-- `KVStore.get` (lines 74-78). -/
def KVStore.get (s : Store) (key : String) : JVal :=
  match storeLookup s key with
  | none => errResp "not found"
  | some v => .obj (.cons "ok" (.bool true) (.cons "value" v .nil))

/-- `KVStore.delete` (lines 80-83): `existed` is
`self._data.pop(key, None) is not None`, i.e. it is `false` whenever the
popped value is `None` — also when the key was present with value `null`. -/
def KVStore.delete (s : Store) (key : String) : Store × JVal :=
  let popped : JVal := match storeLookup s key with
    | some v => v
    | none => .null
  let existed : Bool := !(isNull popped)
  (storeErase s key,
    .obj (.cons "ok" (.bool true) (.cons "deleted" (.bool existed) .nil)))

/-- Build a JSON array of strings (for `list(self._data.keys())`). -/
def strJArr : List String → JArr
  | [] => .nil
  | k :: rest => .cons (.str k) (strJArr rest)

/-- `KVStore.keys` (lines 85-87): the store is not modified. -/
def KVStore.keys (s : Store) : JVal :=
  .obj (.cons "ok" (.bool true) (.cons "keys" (.arr (strJArr (s.map Prod.fst))) .nil))

/-- `KVStore.clear` (lines 89-92). -/
def KVStore.clear (_s : Store) : Store × JVal :=
  ([], okResp)

/-! ## JSON text codec (`json.dumps(..., separators=(",", ":"))` / `json.loads`)

The serializer produces the exact compact form `json.dumps` produces on
the ASCII fragment; the recursive-descent reader models `json.loads` on
that fragment (escapes `\"` and `\\`; other escapes are not produced by
the encoder on plain-ASCII strings). -/

/-- Decimal digit character. -/
def digitChar (d : Nat) : Char := Char.ofNat (48 + d)

/-- Is `c` an ASCII decimal digit? -/
def isDigitCh (c : Char) : Bool := 48 ≤ c.toNat && c.toNat ≤ 57

/-- Decimal digits of `n`, most significant first (`"0"` for `0`). -/
def natDigits (n : Nat) : List Char :=
  if n = 0 then ['0'] else (Nat.digits 10 n).reverse.map digitChar

/-- Fold a digit string onto an accumulator (reader side). -/
def digitsVal : List Char → Nat → Nat
  | [], acc => acc
  | c :: cs, acc => digitsVal cs (acc * 10 + (c.toNat - 48))

/-- Digits of `n` left-padded with zeros to at least `e + 1` characters. -/
def padDigits (n e : Nat) : List Char :=
  List.replicate (e + 1 - (natDigits n).length) '0' ++ natDigits n

/-- Decimal rendering of `n / 10^e` (`e = 0`: integer form; `e > 0`:
padded to at least one integer digit, exactly `e` fractional digits). -/
def serNatDec (n : Nat) (e : Nat) : List Char :=
  if e = 0 then natDigits n
  else
    (padDigits n e).take ((padDigits n e).length - e) ++
      '.' :: (padDigits n e).drop ((padDigits n e).length - e)

/-- Rendering of the JSON number `m / 10^e`. -/
def serNum (m : Int) (e : Nat) : List Char :=
  if m < 0 then '-' :: serNatDec m.natAbs e else serNatDec m.natAbs e

/-- JSON string-character escaping (`\"` and `\\`; other ASCII
printable characters are emitted verbatim by `json.dumps`). -/
def escChar (c : Char) : List Char :=
  if c = '"' then ['\\', '"']
  else if c = '\\' then ['\\', '\\']
  else [c]

/-- Escaped body of a JSON string. -/
def serStrChars (s : List Char) : List Char := (s.map escChar).flatten

/-- A JSON string literal, quotes included. -/
def serStr (s : String) : List Char := '"' :: (serStrChars s.data ++ ['"'])

mutual

/-- Compact JSON rendering of a value (`json.dumps` with separators
`","` and `":"`). -/
def serVal : JVal → List Char
  | .null => "null".data
  | .bool b => if b then "true".data else "false".data
  | .num m e => serNum m e
  | .str s => serStr s
  | .arr l => '[' :: (serArrItems l ++ [']'])
  | .obj l => '{' :: (serObjItems l ++ ['}'])

/-- Comma-separated array items. -/
def serArrItems : JArr → List Char
  | .nil => []
  | .cons v .nil => serVal v
  | .cons v l => serVal v ++ ',' :: serArrItems l

/-- Comma-separated `"key":value` object items. -/
def serObjItems : JObj → List Char
  | .nil => []
  | .cons k v .nil => serStr k ++ ':' :: serVal v
  | .cons k v l => serStr k ++ ':' :: serVal v ++ ',' :: serObjItems l

end

/-- Unsigned part of a JSON number (integer digits, optional
fraction); `neg` records an already-consumed minus sign. -/
def parseNumCore (neg : Bool) (rest0 : List Char) : Option (JVal × List Char) :=
  let ds := rest0.takeWhile isDigitCh
  let rest1 := rest0.dropWhile isDigitCh
  if ds.isEmpty then none
  else
    let ip := digitsVal ds 0
    match rest1 with
    | '.' :: rest2 =>
      let fs := rest2.takeWhile isDigitCh
      let rest3 := rest2.dropWhile isDigitCh
      if fs.isEmpty then none
      else
        let mAbs : Nat := ip * 10 ^ fs.length + digitsVal fs 0
        some (.num (if neg then -(mAbs : Int) else (mAbs : Int)) fs.length, rest3)
    | _ => some (.num (if neg then -(ip : Int) else (ip : Int)) 0, rest1)

/-- Read a JSON number (optional sign, integer digits, optional
fraction).  Returns the value and the unconsumed input. -/
def parseNum (input : List Char) : Option (JVal × List Char) :=
  match input with
  | '-' :: rest0 => parseNumCore true rest0
  | _ => parseNumCore false input

/-- Read the body of a JSON string after the opening quote, handling
the `\"` and `\\` escapes produced by the encoder. -/
def parseStrBody : List Char → Option (List Char × List Char)
  | [] => none
  | c :: rest =>
    if c = '"' then some ([], rest)
    else if c = '\\' then
      match rest with
      | [] => none
      | e :: rest2 =>
        if e = '"' || e = '\\' then
          (parseStrBody rest2).map (fun p => (e :: p.1, p.2))
        else none
    else (parseStrBody rest).map (fun p => (c :: p.1, p.2))

/-- Require the literal characters `cs` at the head of the input. -/
def expectChars : List Char → List Char → Option (List Char)
  | [], input => some input
  | c :: cs, input =>
    match input with
    | [] => none
    | d :: rest => if d = c then expectChars cs rest else none

mutual

/-- Fuel-indexed recursive-descent JSON reader (one value). -/
def parseVal : Nat → List Char → Option (JVal × List Char)
  | 0, _ => none
  | Nat.succ f, input =>
    match input with
    | [] => none
    | c :: rest =>
      if c = 'n' then (expectChars ['u', 'l', 'l'] rest).map (fun r => (.null, r))
      else if c = 't' then (expectChars ['r', 'u', 'e'] rest).map (fun r => (.bool true, r))
      else if c = 'f' then (expectChars ['a', 'l', 's', 'e'] rest).map (fun r => (.bool false, r))
      else if c = '"' then (parseStrBody rest).map (fun p => (.str (String.mk p.1), p.2))
      else if c = '[' then
        match rest with
        | ']' :: rest2 => some (.arr .nil, rest2)
        | _ => (parseArrItems f rest).map (fun p => (.arr p.1, p.2))
      else if c = '{' then
        match rest with
        | '}' :: rest2 => some (.obj .nil, rest2)
        | _ => (parseObjItems f rest).map (fun p => (.obj p.1, p.2))
      else parseNum (c :: rest)

/-- Items of a nonempty JSON array, up to and including `]`. -/
def parseArrItems : Nat → List Char → Option (JArr × List Char)
  | 0, _ => none
  | Nat.succ f, input =>
    match parseVal f input with
    | none => none
    | some (v, rest) =>
      match rest with
      | ',' :: rest2 => (parseArrItems f rest2).map (fun p => (.cons v p.1, p.2))
      | ']' :: rest2 => some (.cons v .nil, rest2)
      | _ => none

/-- Items of a nonempty JSON object, up to and including `}`. -/
def parseObjItems : Nat → List Char → Option (JObj × List Char)
  | 0, _ => none
  | Nat.succ f, input =>
    match input with
    | '"' :: rest =>
      match parseStrBody rest with
      | none => none
      | some (k, rest1) =>
        match rest1 with
        | ':' :: rest2 =>
          match parseVal f rest2 with
          | none => none
          | some (v, rest3) =>
            match rest3 with
            | ',' :: rest4 => (parseObjItems f rest4).map (fun p => (.cons (String.mk k) v p.1, p.2))
            | '}' :: rest4 => some (.cons (String.mk k) v .nil, rest4)
            | _ => none
        | _ => none
    | _ => none

end

/-! ## Wire framing (`read_frame` / `write_frame`, lines 48-59)

A stream is a list of bytes (`List Nat`).  `HEADER = struct.Struct("!I")`
packs an unsigned 32-bit big-endian length. -/

/-- `HEADER.pack`: 4 big-endian bytes of `n` (for `n < 2^32`). -/
def be32 (n : Nat) : List Nat :=
  [n / 16777216 % 256, n / 65536 % 256, n / 256 % 256, n % 256]

/-- `HEADER.unpack`: unsigned big-endian value of 4 bytes. -/
def unbe32 (b0 b1 b2 b3 : Nat) : Nat :=
  b0 * 16777216 + b1 * 65536 + b2 * 256 + b3

/-- `.encode("utf-8")` on the ASCII fragment: one byte per character. -/
def strToBytes (l : List Char) : List Nat := l.map Char.toNat

/-- `.decode("utf-8")` on the ASCII fragment: a byte `≥ 128` is
modelled as a decode failure. -/
def bytesToChars (l : List Nat) : Option (List Char) :=
  if l.all (fun b => decide (b < 128)) then some (l.map Char.ofNat) else none

/-- `write_frame` (lines 56-59): serialize to compact JSON, UTF-8
encode, prefix the 4-byte big-endian length. -/
def write_frame (payload : JVal) : List Nat :=
  let data := strToBytes (serVal payload)
  be32 data.length ++ data

/-- Outcome of `read_frame` as observed by its caller `handle_client`:
the peer closed / an exception with message `msg` (stream position
after the consumed bytes) / a decoded value (stream position after the
frame). -/
inductive ReadResult : Type where
  | closed : ReadResult
  | errRes : String → List Nat → ReadResult
  | okRes : JVal → List Nat → ReadResult

/-- `json.loads(data.decode("utf-8"))` applied to the body bytes
(`rest` is the stream position after the body was consumed). -/
def decodeBody (body rest : List Nat) : ReadResult :=
  match bytesToChars body with
  | none => .errRes "unicode decode error" rest
  | some cs =>
    match parseVal (cs.length + 1) cs with
    | some (v, []) => .okRes v rest
    | some (_, _ :: _) => .errRes "Extra data" rest
    | none => .errRes "Expecting value" rest

/-- `read_frame` (lines 48-54): read exactly 4 header bytes
(`IncompleteReadError` → `closed` if the stream ends first), check
`length < 0 or length > 10_000_000` before reading the body, then read
exactly `length` body bytes and JSON-decode them. -/
def read_frame (s : List Nat) : ReadResult :=
  match s with
  | b0 :: b1 :: b2 :: b3 :: rest =>
    let length := unbe32 b0 b1 b2 b3
    if length < 0 || length > 10000000 then .errRes "invalid frame length" rest
    else if rest.length < length then .closed
    else decodeBody (rest.take length) (rest.drop length)
  | _ => .closed

/-! ## Loan math (`calculate_payments`, lines 17-27)

Real arithmetic is modelled exactly over `ℚ`; a Python
`ZeroDivisionError` is modelled as an `Except.error`. -/

/-- Round half to even to an integer (Python `round`'s tie rule). -/
def roundHalfEven (q : ℚ) : Int :=
  let f := ⌊q⌋
  if q - f < 1 / 2 then f
  else if q - f > 1 / 2 then f + 1
  else if f % 2 = 0 then f else f + 1

/-- Python `round(x, 2)`. -/
def round2 (q : ℚ) : ℚ := (roundHalfEven (q * 100) : ℚ) / 100

/-- `calculate_payments` (lines 17-27): monthly and total payments,
both rounded to two decimals; divisions by zero surface as the
`ZeroDivisionError` the dispatcher later stringifies. -/
def calculate_payments (loan_amount : ℚ) (years : Int) (annual_rate : ℚ) :
    Except String (ℚ × ℚ) :=
  let monthly_rate := annual_rate / 100 / 12
  let total_payments : Int := years * 12
  if monthly_rate = 0 then
    if (total_payments : ℚ) = 0 then .error "float division by zero"
    else
      let monthly_payment := loan_amount / (total_payments : ℚ)
      .ok (round2 monthly_payment, round2 (monthly_payment * (total_payments : ℚ)))
  else
    if (1 : ℚ) + monthly_rate = 0 then .error "float division by zero"
    else if (1 : ℚ) - (1 / (1 + monthly_rate)) ^ total_payments = 0 then
      .error "float division by zero"
    else
      let monthly_payment :=
        (loan_amount * monthly_rate) / (1 - (1 / (1 + monthly_rate)) ^ total_payments)
      .ok (round2 monthly_payment, round2 (monthly_payment * (total_payments : ℚ)))

/-! ## Python coercions used by the dispatcher (`str`, `float`, `int`,
`str.upper`) -/

/-- ASCII uppercasing of one character. -/
def asciiUpper (c : Char) : Char :=
  if 'a' ≤ c && c ≤ 'z' then Char.ofNat (c.toNat - 32) else c

/-- `str.upper()` (modelled on the ASCII fragment). -/
def pyUpper (s : String) : String := String.mk (s.data.map asciiUpper)

mutual

/-- Python `repr` of a JSON-decoded value (`str` lists/dicts print via
`repr` of their elements; strings get single quotes). -/
def pyRepr : JVal → String
  | .null => "None"
  | .bool true => "True"
  | .bool false => "False"
  | .num m e => String.mk (serNum m e)
  | .str s => "'" ++ s ++ "'"
  | .arr l => "[" ++ pyReprArr l ++ "]"
  | .obj l => "\x7b" ++ pyReprObj l ++ "\x7d"

/-- `repr` items of a list, separated by `", "`. -/
def pyReprArr : JArr → String
  | .nil => ""
  | .cons v .nil => pyRepr v
  | .cons v l => pyRepr v ++ ", " ++ pyReprArr l

/-- `repr` items of a dict, separated by `", "`. -/
def pyReprObj : JObj → String
  | .nil => ""
  | .cons k v .nil => "'" ++ k ++ "': " ++ pyRepr v
  | .cons k v l => "'" ++ k ++ "': " ++ pyRepr v ++ ", " ++ pyReprObj l

end

/-- Python `str(x)` of a JSON-decoded value. -/
def pyStr : JVal → String
  | .str s => s
  | v => pyRepr v

/-- Exact value of the JSON number `m / 10^e` as a rational. -/
def qOfNum (m : Int) (e : Nat) : ℚ := (m : ℚ) / (10 : ℚ) ^ e

/-- `float('...')` on a plain signed decimal literal. -/
def parseFloatStr (s : String) : Option ℚ :=
  match parseNum s.data with
  | some (.num m e, []) => some (qOfNum m e)
  | _ => none

/-- Python `float(x)` on a JSON-decoded value. -/
def pyFloat : JVal → Except String ℚ
  | .num m e => .ok (qOfNum m e)
  | .bool b => .ok (if b then 1 else 0)
  | .str s =>
    match parseFloatStr s with
    | some q => .ok q
    | none => .error ("could not convert string to float: '" ++ s ++ "'")
  | v => .error ("float() argument must be a string or a real number, not '"
      ++ typeName v ++ "'")

/-- Truncation toward zero of `m / 10^e` (Python `int` of a float). -/
def truncDec (m : Int) (e : Nat) : Int :=
  if 0 ≤ m then ((m.natAbs / 10 ^ e : Nat) : Int) else -((m.natAbs / 10 ^ e : Nat) : Int)

/-- `int('...')` on a signed decimal integer literal. -/
def parseIntStr (s : String) : Option Int :=
  let core : List Char → Option Nat := fun ds =>
    if ds.isEmpty then none
    else if ds.all isDigitCh then some (digitsVal ds 0) else none
  match s.data with
  | '-' :: ds => (core ds).map (fun n => -(n : Int))
  | '+' :: ds => (core ds).map (fun n => (n : Int))
  | ds => (core ds).map (fun n => (n : Int))

/-- Python `int(x)` on a JSON-decoded value. -/
def pyInt : JVal → Except String Int
  | .num m e => .ok (truncDec m e)
  | .bool b => .ok (if b then 1 else 0)
  | .str s =>
    match parseIntStr s with
    | some n => .ok n
    | none => .error ("invalid literal for int() with base 10: '" ++ s ++ "'")
  | v => .error ("int() argument must be a string, a bytes-like object or a real number, not '"
      ++ typeName v ++ "'")

/-! ## Command dispatcher (`handle_client`, lines 125-172)

The dispatch step maps the decoded request and the store to a response
and an updated store.  An uncaught Python exception (only possible at
`req.get("cmd")` on a non-dict payload or at `.upper()` on a truthy
non-string `cmd`) is modelled as `Except.error`: it propagates past
the dispatcher and the `finally:` block closes the connection without
a response. -/

/-- Message of the `AttributeError` raised by `v.attr` when `v` has no
such attribute. -/
def attrErr (v : JVal) (attr : String) : String :=
  "'" ++ typeName v ++ "' object has no attribute '" ++ attr ++ "'"

/-- `req.get(key)` as seen by Python: absent key and stored `null`
both come back as `None`. -/
def getOrNone (fields : JObj) (key : String) : JVal :=
  match jGet fields key with
  | some v => v
  | none => .null

/-- `x or ""` applied to `req.get("username")` (line 133). -/
def orEmptyStr (v : JVal) : JVal := if truthy v then v else .str ""

/-- JSON number for a Python float whose denominator divides 100
(the two-decimal rounded payments). -/
def jOfQ2 (q : ℚ) : JVal := .num ((q * 100).num) 2

/-- The `LOAN` branch (lines 131-142): `try:` body with `except
KeyError` → `missing field: '…'` and `except Exception` → stringified
message.  `username` is read with `req.get(...) or ""` and so never
raises; the three other fields are indexed directly and raise
`KeyError` when absent. -/
def loanBody (fields : JObj) : JVal :=
  let _username := pyStr (orEmptyStr (getOrNone fields "username"))
  match jGet fields "loan_amount" with
  | none => errResp "missing field: 'loan_amount'"
  | some la =>
    match pyFloat la with
    | .error e => errResp e
    | .ok loan_amount =>
      match jGet fields "years" with
      | none => errResp "missing field: 'years'"
      | some ys =>
        match pyInt ys with
        | .error e => errResp e
        | .ok years =>
          match jGet fields "annual_rate" with
          | none => errResp "missing field: 'annual_rate'"
          | some ar =>
            match pyFloat ar with
            | .error e => errResp e
            | .ok annual_rate =>
              match calculate_payments loan_amount years annual_rate with
              | .error e => errResp e
              | .ok (monthly, total) =>
                .obj (.cons "ok" (.bool true)
                  (.cons "monthly_payment" (jOfQ2 monthly)
                    (.cons "total_payment" (jOfQ2 total) .nil)))

/-- Dispatch on the uppercased command string (the `if`/`elif` chain of
lines 128-172). -/
def dispatchCmd (store : Store) (fields : JObj) (cmd : String) :
    Except String (Store × JVal) :=
  if cmd = "PING" then
    .ok (store, .obj (.cons "ok" (.bool true) (.cons "reply" (.str "PONG") .nil)))
  else if cmd = "LOAN" then .ok (store, loanBody fields)
  else if cmd = "SET" then
    let key := getOrNone fields "key"
    if isNull key || !(jHasKey fields "value") then
      .ok (store, errResp "SET requires 'key' and 'value'")
    else
      match jGet fields "value" with
      | some v =>
        let p := KVStore.set store (pyStr key) v
        .ok (p.1, p.2)
      | none => .error "KeyError: 'value'"
  else if cmd = "GET" then
    let key := getOrNone fields "key"
    if isNull key then .ok (store, errResp "GET requires 'key'")
    else .ok (store, KVStore.get store (pyStr key))
  else if cmd = "DEL" then
    let key := getOrNone fields "key"
    if isNull key then .ok (store, errResp "DEL requires 'key'")
    else
      let p := KVStore.delete store (pyStr key)
      .ok (p.1, p.2)
  else if cmd = "KEYS" then .ok (store, KVStore.keys store)
  else if cmd = "CLEAR" then
    let p := KVStore.clear store
    .ok (p.1, p.2)
  else .ok (store, errResp ("unknown cmd: " ++ cmd))

/-- The dispatch step of `handle_client` (lines 125-172):
`cmd = (req.get("cmd") or "").upper()` followed by the command chain.
`req.get` on a non-dict raises `AttributeError`, as does `.upper()` on
a truthy non-string `cmd` value. -/
def dispatch (store : Store) (req : JVal) : Except String (Store × JVal) :=
  match req with
  | .obj fields =>
    match (if truthy (getOrNone fields "cmd") then getOrNone fields "cmd" else .str "") with
    | .str s => dispatchCmd store fields (pyUpper s)
    | v => .error (attrErr v "upper")
  | v => .error (attrErr v "get")

/-! ## Connection-handler loop (`handle_client`, lines 95-189)

One loop iteration starts from the outcome of
`asyncio.wait_for(read_frame(reader), timeout=300)` as observed by the
`try/except` of lines 100-123: a timeout, a closed stream
(`IncompleteReadError`), any other read exception, or a decoded
request.  The trace semantics records the responses written and the
log records appended, in order; reaching the end of the result means
the `finally:` block (lines 184-189) has closed the transport. -/

/-- Outcome of one `await asyncio.wait_for(read_frame(...), 300)`. -/
inductive ReadOutcome : Type where
  | timeout : ReadOutcome
  | closed : ReadOutcome
  | readErr : String → ReadOutcome
  | got : JVal → ReadOutcome

/-- A log record appended by `logger.log` (timestamp and peer address
elided). -/
inductive LogEvent : Type where
  | timeoutEvt : JVal → LogEvent
  | readErrorEvt : String → LogEvent
  | exchange : JVal → JVal → LogEvent

/-- The response synthesized on idle timeout (line 103). -/
def timeoutResp : JVal := errResp "idle timeout"

/-- Trace of the `while True:` loop of `handle_client` over a list of
read outcomes: final store, responses written, log records appended.
A `timeout` sends one response, logs it and breaks; `closed` breaks
silently; a read error sends an error response, logs it and
continues; a decoded request is dispatched — an uncaught dispatch
exception aborts the loop (no response), otherwise the response is
written and the exchange logged. -/
def runHandler : Store → List ReadOutcome → Store × List JVal × List LogEvent
  | s, [] => (s, [], [])
  | s, o :: rest =>
    match o with
    | .timeout => (s, [timeoutResp], [.timeoutEvt timeoutResp])
    | .closed => (s, [], [])
    | .readErr m =>
      let t := runHandler s rest
      (t.1, errResp m :: t.2.1, .readErrorEvt m :: t.2.2)
    | .got req =>
      match dispatch s req with
      | .error _ => (s, [], [])
      | .ok (s2, resp) =>
        let t := runHandler s2 rest
        (t.1, resp :: t.2.1, .exchange req resp :: t.2.2)

/-- Does the loop consume this whole outcome list without breaking
(no timeout, no close, no uncaught dispatch exception)? -/
def runsThrough : Store → List ReadOutcome → Bool
  | _, [] => true
  | s, o :: rest =>
    match o with
    | .timeout => false
    | .closed => false
    | .readErr _ => runsThrough s rest
    | .got req =>
      match dispatch s req with
      | .error _ => false
      | .ok (s2, _) => runsThrough s2 rest

/-! ## Codec correctness: digit strings -/

/-- `digitChar` of a decimal digit has the expected code point. -/
theorem digitChar_toNat (d : Nat) (h : d < 10) : (digitChar d).toNat = 48 + d := by
  have hv : Nat.isValidChar (48 + d) := Or.inl (by omega)
  unfold digitChar Char.ofNat
  rw [dif_pos hv]
  simp [Char.ofNatAux, Char.toNat, UInt32.toNat, BitVec.toNat_ofNatLt]

/-- `digitChar` of a decimal digit is a digit character. -/
theorem isDigitCh_digitChar (d : Nat) (h : d < 10) : isDigitCh (digitChar d) = true := by
  simp [isDigitCh, digitChar_toNat d h]
  omega

/-- Every character of `natDigits n` is a digit. -/
theorem natDigits_digits (n : Nat) : ∀ c ∈ natDigits n, isDigitCh c = true := by
  intro c hc
  unfold natDigits at hc
  by_cases h : n = 0
  · simp [h] at hc
    simp [hc]
    rfl
  · simp [h] at hc
    obtain ⟨d, hd, rfl⟩ := hc
    exact isDigitCh_digitChar d (Nat.digits_lt_base (by norm_num) hd)

/-- `natDigits n` is nonempty. -/
theorem natDigits_ne_nil (n : Nat) : natDigits n ≠ [] := by
  unfold natDigits
  by_cases h : n = 0
  · simp [h]
  · simp [h, Nat.digits_ne_nil_iff_ne_zero.mpr h]

/-- Folding distributes over list append. -/
theorem digitsVal_append (a b : List Char) (acc : Nat) :
    digitsVal (a ++ b) acc = digitsVal b (digitsVal a acc) := by
  induction a generalizing acc with
  | nil => rfl
  | cons c cs ih => simp [digitsVal, ih]

/-- The accumulator enters the fold linearly. -/
theorem digitsVal_acc (l : List Char) (acc : Nat) :
    digitsVal l acc = acc * 10 ^ l.length + digitsVal l 0 := by
  induction l generalizing acc with
  | nil => simp [digitsVal]
  | cons c cs ih =>
    rw [digitsVal, digitsVal, ih (acc * 10 + (c.toNat - 48)), ih (0 * 10 + (c.toNat - 48))]
    simp [List.length_cons, pow_succ]
    ring

/-- A run of `'0'` characters folds to the accumulator times a power of ten. -/
theorem digitsVal_replicate_zero (k : Nat) (acc : Nat) :
    digitsVal (List.replicate k '0') acc = acc * 10 ^ k := by
  induction k generalizing acc with
  | zero => simp [digitsVal]
  | succ k ih =>
    rw [List.replicate_succ, digitsVal]
    have : ('0' : Char).toNat - 48 = 0 := rfl
    rw [this, ih]
    ring

/-- Folding the digit characters of a digit list (little-endian source,
most-significant first after `reverse`). -/
theorem digitsVal_map_digitChar (L : List Nat) (acc : Nat) (h : ∀ d ∈ L, d < 10) :
    digitsVal (L.map digitChar) acc = List.foldl (fun a d => a * 10 + d) acc L := by
  induction L generalizing acc with
  | nil => rfl
  | cons d ds ih =>
    simp only [List.map_cons, digitsVal, List.foldl_cons]
    rw [digitChar_toNat d (h d (by simp)), ih _ (fun x hx => h x (by simp [hx]))]
    congr 1
    omega

/-- Most-significant-first folding of a reversed little-endian digit
list recovers `Nat.ofDigits`. -/
theorem foldl_reverse_ofDigits (L : List Nat) (acc : Nat) :
    List.foldl (fun a d => a * 10 + d) acc L.reverse = acc * 10 ^ L.length + Nat.ofDigits 10 L := by
  induction L generalizing acc with
  | nil => simp [Nat.ofDigits_nil]
  | cons d ds ih =>
    simp only [List.reverse_cons, List.foldl_append, List.foldl_cons, List.foldl_nil, ih,
      Nat.ofDigits_cons, List.length_cons, pow_succ]
    ring

/-- Folding the printed digits of `n` recovers `n`. -/
theorem digitsVal_natDigits (n : Nat) : digitsVal (natDigits n) 0 = n := by
  unfold natDigits
  by_cases h : n = 0
  · simp [h, digitsVal]
  · simp only [h, if_false]
    rw [digitsVal_map_digitChar _ _
        (fun d hd => Nat.digits_lt_base (by norm_num) (List.mem_reverse.mp hd)),
      foldl_reverse_ofDigits]
    simp [Nat.ofDigits_digits]

/-! ## Codec correctness: numbers -/

/-- Delimiter condition: the continuation does not start with a digit
or a decimal point, so number reading stops exactly at the boundary. -/
def numDelim (l : List Char) : Prop :=
  ∀ c, l.head? = some c → isDigitCh c = false ∧ c ≠ '.'

/-- The empty continuation is a delimiter. -/
theorem numDelim_nil : numDelim [] := by
  intro c h
  simp at h

/-- A continuation headed by a non-digit, non-dot character is a delimiter. -/
theorem numDelim_cons (c : Char) (l : List Char) (h1 : isDigitCh c = false) (h2 : c ≠ '.') :
    numDelim (c :: l) := by
  intro d hd
  simp only [List.head?_cons, Option.some.injEq] at hd
  subst hd
  exact ⟨h1, h2⟩

/-- `takeWhile`/`dropWhile` split an all-digit block exactly at a
non-digit continuation. -/
theorem span_digits (a b : List Char) (ha : ∀ c ∈ a, isDigitCh c = true)
    (hb : ∀ c, b.head? = some c → isDigitCh c = false) :
    (a ++ b).takeWhile isDigitCh = a ∧ (a ++ b).dropWhile isDigitCh = b := by
  induction a with
  | nil =>
    simp only [List.nil_append]
    cases b with
    | nil => simp
    | cons c bs =>
      have hc := hb c rfl
      simp [List.takeWhile_cons, List.dropWhile_cons, hc]
  | cons c cs ih =>
    have hc : isDigitCh c = true := ha c (by simp)
    have ih2 := ih (fun x hx => ha x (by simp [hx]))
    simp [List.takeWhile_cons, List.dropWhile_cons, hc, ih2.1, ih2.2]

/-- Every character of the padded digit block is a digit. -/
theorem padDigits_digits (n e : Nat) : ∀ c ∈ padDigits n e, isDigitCh c = true := by
  intro c hc
  rcases List.mem_append.mp hc with h | h
  · rw [List.eq_of_mem_replicate h]
    rfl
  · exact natDigits_digits n c h

/-- The padded digit block has at least `e + 1` characters. -/
theorem padDigits_length (n e : Nat) : e + 1 ≤ (padDigits n e).length := by
  have := natDigits_ne_nil n
  have h1 : 1 ≤ (natDigits n).length := by
    cases h : natDigits n with
    | nil => exact absurd h this
    | cons c cs => simp
  simp [padDigits, List.length_append, List.length_replicate]
  omega

/-- The padded digit block folds to `n`. -/
theorem digitsVal_padDigits (n e : Nat) : digitsVal (padDigits n e) 0 = n := by
  rw [padDigits, digitsVal_append, digitsVal_replicate_zero, zero_mul, digitsVal_natDigits]

/-- The rendered decimal starts with a digit. -/
theorem serNatDec_head (n e : Nat) :
    ∃ c cs, serNatDec n e = c :: cs ∧ isDigitCh c = true := by
  unfold serNatDec
  by_cases he : e = 0
  · simp only [if_pos he]
    cases h : natDigits n with
    | nil => exact absurd h (natDigits_ne_nil n)
    | cons c cs => exact ⟨c, cs, rfl, natDigits_digits n c (by rw [h]; simp)⟩
  · simp only [if_neg he]
    have hpl := padDigits_length n e
    cases hp : padDigits n e with
    | nil => rw [hp] at hpl; simp at hpl
    | cons c cs =>
      rw [hp] at hpl
      obtain ⟨k, hk⟩ : ∃ k, (c :: cs).length - e = k + 1 :=
        ⟨(c :: cs).length - e - 1, by simp at hpl ⊢; omega⟩
      refine ⟨c, List.take k cs ++ '.' :: List.drop (k + 1) (c :: cs), ?_,
        padDigits_digits n e c (by rw [hp]; simp)⟩
      rw [hk, List.take_succ_cons, List.cons_append]

/-- `parseNumCore` inverts the decimal rendering. -/
theorem parseNumCore_serNatDec (neg : Bool) (n e : Nat) (rest : List Char)
    (hrest : numDelim rest) :
    parseNumCore neg (serNatDec n e ++ rest) =
      some (.num (if neg then -(n : Int) else (n : Int)) e, rest) := by
  by_cases he : e = 0
  · subst he
    rw [serNatDec, if_pos rfl]
    have hspan := span_digits (natDigits n) rest (natDigits_digits n)
      (fun c hc => (hrest c hc).1)
    rw [parseNumCore]
    simp only [hspan.1, hspan.2]
    rw [if_neg (by simp [List.isEmpty_iff, natDigits_ne_nil n])]
    cases rest with
    | nil => rw [digitsVal_natDigits n]
    | cons c0 rs =>
      have hdot := (hrest c0 rfl).2
      split
      · rename_i rest2 heq
        rw [List.cons.injEq] at heq
        exact absurd heq.1 hdot
      · rw [digitsVal_natDigits n]
  · rw [serNatDec, if_neg he]
    have hpd := padDigits_digits n e
    have hpl := padDigits_length n e
    have hassoc : ((padDigits n e).take ((padDigits n e).length - e) ++
          '.' :: (padDigits n e).drop ((padDigits n e).length - e)) ++ rest
        = (padDigits n e).take ((padDigits n e).length - e) ++
          '.' :: ((padDigits n e).drop ((padDigits n e).length - e) ++ rest) := by
      simp
    rw [hassoc]
    have htd : ∀ c ∈ (padDigits n e).take ((padDigits n e).length - e), isDigitCh c = true :=
      fun c hc => hpd c (List.take_subset _ _ hc)
    have hspan1 := span_digits
      ((padDigits n e).take ((padDigits n e).length - e))
      ('.' :: ((padDigits n e).drop ((padDigits n e).length - e) ++ rest)) htd
      (by
        intro c hc
        simp only [List.head?_cons, Option.some.injEq] at hc
        subst hc
        rfl)
    have hspan2 := span_digits ((padDigits n e).drop ((padDigits n e).length - e)) rest
      (fun c hc => hpd c (List.drop_subset _ _ hc)) (fun c hc => (hrest c hc).1)
    rw [parseNumCore]
    simp only [hspan1.1, hspan1.2]
    have htlen : ((padDigits n e).take ((padDigits n e).length - e)).length
        = (padDigits n e).length - e := by
      simp
    have hdlen : ((padDigits n e).drop ((padDigits n e).length - e)).length = e := by
      simp
      omega
    rw [if_neg (by
      simp only [List.isEmpty_iff]
      intro hemp
      rw [hemp] at htlen
      simp at htlen
      omega)]
    simp only [hspan2.1, hspan2.2]
    rw [if_neg (by
      simp only [List.isEmpty_iff]
      intro hemp
      rw [hemp] at hdlen
      simp at hdlen
      omega)]
    have hval : digitsVal ((padDigits n e).take ((padDigits n e).length - e)) 0 *
          10 ^ ((padDigits n e).drop ((padDigits n e).length - e)).length +
          digitsVal ((padDigits n e).drop ((padDigits n e).length - e)) 0 = n := by
      have h1 := digitsVal_padDigits n e
      conv at h1 => rw [← List.take_append_drop ((padDigits n e).length - e) (padDigits n e)]
      rw [digitsVal_append] at h1
      rw [digitsVal_acc] at h1
      omega
    rw [hdlen] at hval
    rw [hdlen, hval]

/-- `parseNum` inverts the JSON number rendering. -/
theorem parseNum_serNum (m : Int) (e : Nat) (rest : List Char) (hrest : numDelim rest) :
    parseNum (serNum m e ++ rest) = some (.num m e, rest) := by
  rw [serNum]
  by_cases hm : m < 0
  · rw [if_pos hm, List.cons_append, parseNum, parseNumCore_serNatDec true m.natAbs e rest hrest]
    have : -(m.natAbs : Int) = m := by omega
    rw [if_pos rfl, this]
  · rw [if_neg hm]
    obtain ⟨c, cs, hcs, hc⟩ := serNatDec_head m.natAbs e
    have hmn : ((m.natAbs : Int)) = m := by omega
    rw [parseNum.eq_2 _ (by
      intro rest0 heq
      rw [hcs, List.cons_append, List.cons.injEq] at heq
      have hdig : isDigitCh '-' = false := rfl
      rw [heq.1] at hc
      rw [hc] at hdig
      exact Bool.noConfusion hdig)]
    rw [parseNumCore_serNatDec false m.natAbs e rest hrest, if_neg (by simp), hmn]

/-! ## Codec correctness: strings -/

/-- Printable-ASCII character: emitted verbatim or with a one-character
escape by `json.dumps` (never as a `\uXXXX` escape), and one byte in
UTF-8.  The modelled fragment of the codec. -/
def plainChar (c : Char) : Bool := 32 ≤ c.toNat && c.toNat ≤ 126

/-- `parseStrBody` inverts the string-body escaping. -/
theorem parseStrBody_ser (s : List Char) (rest : List Char) :
    parseStrBody (serStrChars s ++ '"' :: rest) = some (s, rest) := by
  induction s with
  | nil =>
    rw [show serStrChars [] = [] from rfl, List.nil_append, parseStrBody.eq_def]
    simp
  | cons c cs ih =>
    have hser : serStrChars (c :: cs) = escChar c ++ serStrChars cs := by
      simp [serStrChars]
    by_cases h1 : c = '"'
    · subst h1
      rw [hser]
      simp only [escChar, if_pos rfl, List.cons_append, List.append_assoc, List.nil_append]
      rw [parseStrBody.eq_def]
      simp [ih]
    · by_cases h2 : c = '\\'
      · subst h2
        rw [hser]
        simp only [escChar, reduceIte, List.cons_append, List.append_assoc, List.nil_append]
        rw [parseStrBody.eq_def]
        simp [ih]
      · rw [hser]
        simp only [escChar, if_neg h1, if_neg h2, List.cons_append, List.nil_append]
        rw [parseStrBody.eq_def]
        simp [h1, h2, ih]

/-! ## Codec correctness: shape facts about the rendering -/

/-- A digit character is ASCII. -/
theorem isDigitCh_ascii (c : Char) (h : isDigitCh c = true) : c.toNat < 128 := by
  simp [isDigitCh] at h
  omega

/-- The rendered number is nonempty. -/
theorem serNum_length_pos (m : Int) (e : Nat) : 1 ≤ (serNum m e).length := by
  rw [serNum]
  obtain ⟨c, cs, hcs, -⟩ := serNatDec_head m.natAbs e
  by_cases hm : m < 0
  · simp [hm]
  · simp [hm, hcs]

/-- Every character of a rendered decimal is ASCII. -/
theorem serNatDec_ascii (n e : Nat) : ∀ c ∈ serNatDec n e, c.toNat < 128 := by
  intro c hc
  rw [serNatDec] at hc
  by_cases he : e = 0
  · rw [if_pos he] at hc
    exact isDigitCh_ascii c (natDigits_digits n c hc)
  · rw [if_neg he] at hc
    rcases List.mem_append.mp hc with h | h
    · exact isDigitCh_ascii c (padDigits_digits n e c (List.take_subset _ _ h))
    · rcases List.mem_cons.mp h with h | h
      · rw [h]
        decide
      · exact isDigitCh_ascii c (padDigits_digits n e c (List.drop_subset _ _ h))

/-- Every character of a rendered number is ASCII. -/
theorem serNum_ascii (m : Int) (e : Nat) : ∀ c ∈ serNum m e, c.toNat < 128 := by
  intro c hc
  rw [serNum] at hc
  by_cases hm : m < 0
  · rw [if_pos hm] at hc
    rcases List.mem_cons.mp hc with h | h
    · rw [h]
      decide
    · exact serNatDec_ascii m.natAbs e c h
  · rw [if_neg hm] at hc
    exact serNatDec_ascii m.natAbs e c hc

/-- Every character of a rendered string literal made of printable
characters is ASCII. -/
theorem serStr_ascii (s : String) (hs : s.data.all plainChar = true) :
    ∀ c ∈ serStr s, c.toNat < 128 := by
  intro c hc
  rw [serStr] at hc
  rcases List.mem_cons.mp hc with h | h
  · rw [h]
    decide
  · rcases List.mem_append.mp h with h | h
    · rw [serStrChars] at h
      obtain ⟨l, hl, hcl⟩ := List.mem_flatten.mp h
      obtain ⟨c0, hc0, rfl⟩ := List.mem_map.mp hl
      have hp : plainChar c0 = true := by
        rw [List.all_eq_true] at hs
        exact hs c0 hc0
      rw [escChar] at hcl
      by_cases h1 : c0 = '"'
      · rw [if_pos h1] at hcl
        rcases List.mem_cons.mp hcl with h | h
        · rw [h]; decide
        · rcases List.mem_cons.mp h with h | h
          · rw [h]; decide
          · simp at h
      · rw [if_neg h1] at hcl
        by_cases h2 : c0 = '\\'
        · rw [if_pos h2] at hcl
          rcases List.mem_cons.mp hcl with h | h
          · rw [h]; decide
          · rcases List.mem_cons.mp h with h | h
            · rw [h]; decide
            · simp at h
        · rw [if_neg h2] at hcl
          rcases List.mem_cons.mp hcl with h | h
          · rw [h]
            simp [plainChar] at hp
            omega
          · simp at h
    · rcases List.mem_cons.mp h with h | h
      · rw [h]
        decide
      · simp at h

/-- The rendered form of a value starts with a character other than
`]` or `}` (so array/object item readers are never confused). -/
theorem serVal_head (v : JVal) : ∃ c cs, serVal v = c :: cs ∧ c ≠ ']' ∧ c ≠ '}' := by
  cases v with
  | null => exact ⟨'n', _, rfl, by decide, by decide⟩
  | bool b =>
    cases b with
    | true => exact ⟨'t', _, rfl, by decide, by decide⟩
    | false => exact ⟨'f', _, rfl, by decide, by decide⟩
  | num m e =>
    by_cases hm : m < 0
    · exact ⟨'-', _, by rw [serVal, serNum, if_pos hm], by decide, by decide⟩
    · obtain ⟨c, cs, hcs, hc⟩ := serNatDec_head m.natAbs e
      refine ⟨c, cs, by rw [serVal, serNum, if_neg hm, hcs], ?_, ?_⟩
      · intro h
        rw [h] at hc
        exact absurd hc (by decide)
      · intro h
        rw [h] at hc
        exact absurd hc (by decide)
  | str s => exact ⟨'"', _, by rw [serVal, serStr], by decide, by decide⟩
  | arr l => exact ⟨'[', _, rfl, by decide, by decide⟩
  | obj l => exact ⟨'{', _, rfl, by decide, by decide⟩

/-! ## Codec correctness: validity, size and ASCII bounds -/

mutual

/-- Values in the modelled codec fragment: every string (payload and
object key alike) consists of printable-ASCII characters. -/
def jvalid : JVal → Bool
  | .null => true
  | .bool _ => true
  | .num _ _ => true
  | .str s => s.data.all plainChar
  | .arr l => jarrValid l
  | .obj l => jobjValid l

/-- Validity of the items of an array. -/
def jarrValid : JArr → Bool
  | .nil => true
  | .cons v l => jvalid v && jarrValid l

/-- Validity of the items of an object. -/
def jobjValid : JObj → Bool
  | .nil => true
  | .cons k v l => k.data.all plainChar && jvalid v && jobjValid l

end

/-- Every JSON value has at least one node. -/
theorem jsize_pos (v : JVal) : 1 ≤ jsize v := by
  cases v <;> simp [jsize]

/-- The rendered number starts with `-` or a digit. -/
theorem serNum_head (m : Int) (e : Nat) :
    ∃ c cs, serNum m e = c :: cs ∧ (c = '-' ∨ isDigitCh c = true) := by
  rw [serNum]
  by_cases hm : m < 0
  · exact ⟨'-', _, by rw [if_pos hm], Or.inl rfl⟩
  · obtain ⟨c, cs, hcs, hc⟩ := serNatDec_head m.natAbs e
    exact ⟨c, cs, by rw [if_neg hm, hcs], Or.inr hc⟩

/-- A number head is none of the keyword / string / container heads. -/
theorem numHead_ne (ch : Char) (h : ch = '-' ∨ isDigitCh ch = true) :
    ch ≠ 'n' ∧ ch ≠ 't' ∧ ch ≠ 'f' ∧ ch ≠ '"' ∧ ch ≠ '[' ∧ ch ≠ '{' := by
  rcases h with h | h
  · subst h
    exact ⟨by decide, by decide, by decide, by decide, by decide, by decide⟩
  · refine ⟨?_, ?_, ?_, ?_, ?_, ?_⟩ <;>
      (intro he; rw [he] at h; exact absurd h (by decide))

/-- The item rendering of a nonempty array starts with the rendering
of its first element. -/
theorem serArrItems_cons_ex (v : JVal) (t : JArr) :
    ∃ tail, serArrItems (.cons v t) = serVal v ++ tail := by
  cases t with
  | nil => exact ⟨[], by simp [serArrItems]⟩
  | cons v2 t2 => exact ⟨',' :: serArrItems (.cons v2 t2), rfl⟩

mutual

/-- The node count of a value is bounded by its rendered length. -/
theorem serVal_size (v : JVal) : jsize v ≤ (serVal v).length := by
  cases v with
  | null => simp [jsize, serVal]
  | bool b => cases b <;> simp [jsize, serVal]
  | num m e =>
    have := serNum_length_pos m e
    simp only [jsize, serVal]
    omega
  | str s => simp [jsize, serVal, serStr]
  | arr l =>
    have := serArrItems_size l
    simp only [jsize, serVal, List.length_cons, List.length_append]
    omega
  | obj l =>
    have := serObjItems_size l
    simp only [jsize, serVal, List.length_cons, List.length_append]
    omega

/-- Node-count bound for rendered array items. -/
theorem serArrItems_size (l : JArr) : jarrSize l ≤ (serArrItems l).length + 1 := by
  cases l with
  | nil => simp [jarrSize, serArrItems]
  | cons v t =>
    cases t with
    | nil =>
      have := serVal_size v
      simp only [jarrSize, serArrItems]
      omega
    | cons v2 t2 =>
      have h1 := serVal_size v
      have h2 := serArrItems_size (JArr.cons v2 t2)
      simp only [jarrSize, serArrItems, List.length_append, List.length_cons] at h2 ⊢
      omega

/-- Node-count bound for rendered object items. -/
theorem serObjItems_size (l : JObj) : jobjSize l ≤ (serObjItems l).length + 1 := by
  cases l with
  | nil => simp [jobjSize, serObjItems]
  | cons k v t =>
    cases t with
    | nil =>
      have h1 := serVal_size v
      simp only [jobjSize, serObjItems, List.length_append, List.length_cons]
      omega
    | cons k2 v2 t2 =>
      have h1 := serVal_size v
      have h2 := serObjItems_size (JObj.cons k2 v2 t2)
      simp only [jobjSize, serObjItems, List.length_append, List.length_cons] at h2 ⊢
      omega

end

mutual

/-- Every character of the rendering of a valid value is ASCII. -/
theorem serVal_ascii (v : JVal) (hv : jvalid v = true) :
    ∀ c ∈ serVal v, c.toNat < 128 := by
  cases v with
  | null =>
    intro c hc
    simp only [serVal, List.mem_cons, List.not_mem_nil, or_false] at hc
    rcases hc with rfl | rfl | rfl | rfl <;> decide
  | bool b =>
    intro c hc
    cases b with
    | false =>
      rw [show serVal (JVal.bool false) = ['f', 'a', 'l', 's', 'e'] from rfl] at hc
      simp only [List.mem_cons, List.not_mem_nil, or_false] at hc
      rcases hc with rfl | rfl | rfl | rfl | rfl <;> decide
    | true =>
      rw [show serVal (JVal.bool true) = ['t', 'r', 'u', 'e'] from rfl] at hc
      simp only [List.mem_cons, List.not_mem_nil, or_false] at hc
      rcases hc with rfl | rfl | rfl | rfl <;> decide
  | num m e => exact serNum_ascii m e
  | str s =>
    refine serStr_ascii s ?_
    rw [jvalid] at hv
    exact hv
  | arr l =>
    have hv2 : jarrValid l = true := by rw [jvalid] at hv; exact hv
    intro c hc
    simp only [serVal] at hc
    rcases List.mem_cons.mp hc with h | h
    · rw [h]; decide
    · rcases List.mem_append.mp h with h | h
      · exact serArrItems_ascii l hv2 c h
      · rcases List.mem_cons.mp h with h | h
        · rw [h]; decide
        · simp at h
  | obj l =>
    have hv2 : jobjValid l = true := by rw [jvalid] at hv; exact hv
    intro c hc
    simp only [serVal] at hc
    rcases List.mem_cons.mp hc with h | h
    · rw [h]; decide
    · rcases List.mem_append.mp h with h | h
      · exact serObjItems_ascii l hv2 c h
      · rcases List.mem_cons.mp h with h | h
        · rw [h]; decide
        · simp at h

/-- Every character of the rendered items of a valid array is ASCII. -/
theorem serArrItems_ascii (l : JArr) (hv : jarrValid l = true) :
    ∀ c ∈ serArrItems l, c.toNat < 128 := by
  cases l with
  | nil =>
    intro c hc
    simp [serArrItems] at hc
  | cons v t =>
    rw [jarrValid] at hv
    rw [Bool.and_eq_true] at hv
    have hv1 : jvalid v = true := hv.1
    have hv2 : jarrValid t = true := hv.2
    intro c hc
    cases t with
    | nil => exact serVal_ascii v hv1 c hc
    | cons v2 t2 =>
      simp only [serArrItems] at hc
      rcases List.mem_append.mp hc with h | h
      · exact serVal_ascii v hv1 c h
      · rcases List.mem_cons.mp h with h | h
        · rw [h]; decide
        · exact serArrItems_ascii (JArr.cons v2 t2) hv2 c h

/-- Every character of the rendered items of a valid object is ASCII. -/
theorem serObjItems_ascii (l : JObj) (hv : jobjValid l = true) :
    ∀ c ∈ serObjItems l, c.toNat < 128 := by
  cases l with
  | nil =>
    intro c hc
    simp [serObjItems] at hc
  | cons k v t =>
    rw [jobjValid] at hv
    rw [Bool.and_eq_true, Bool.and_eq_true] at hv
    have hvs : k.data.all plainChar = true := hv.1.1
    have hv1 : jvalid v = true := hv.1.2
    have hv2 : jobjValid t = true := hv.2
    intro c hc
    cases t with
    | nil =>
      simp only [serObjItems] at hc
      rcases List.mem_append.mp hc with h | h
      · exact serStr_ascii k hvs c h
      · rcases List.mem_cons.mp h with h | h
        · rw [h]; decide
        · exact serVal_ascii v hv1 c h
    | cons k2 v2 t2 =>
      simp only [serObjItems] at hc
      rcases List.mem_append.mp hc with h | h
      · rcases List.mem_append.mp h with h | h
        · exact serStr_ascii k hvs c h
        · rcases List.mem_cons.mp h with h | h
          · rw [h]; decide
          · exact serVal_ascii v hv1 c h
      · rcases List.mem_cons.mp h with h | h
        · rw [h]; decide
        · exact serObjItems_ascii (JObj.cons k2 v2 t2) hv2 c h

end

/-! ## Codec correctness: the reader inverts the renderer -/

/-- The item rendering of a nonempty object starts with the rendered
key string. -/
theorem serObjItems_cons_ex (k : String) (v : JVal) (t : JObj) :
    ∃ tail, serObjItems (.cons k v t) = serStr k ++ tail := by
  cases t with
  | nil => exact ⟨':' :: serVal v, rfl⟩
  | cons k2 v2 t2 =>
    exact ⟨(':' :: serVal v) ++ ',' :: serObjItems (.cons k2 v2 t2),
      by simp [serObjItems]⟩

/-- Fuel-indexed reader inversion: reading the rendering of a valid
value (resp. of nonempty array/object items) consumes exactly it. -/
theorem parse_ser_fuel : ∀ f : Nat,
    (∀ (v : JVal) (rest : List Char), jvalid v = true → jsize v ≤ f → numDelim rest →
      parseVal f (serVal v ++ rest) = some (v, rest)) ∧
    (∀ (l : JArr) (rest : List Char), l ≠ .nil → jarrValid l = true → jarrSize l ≤ f →
      parseArrItems f (serArrItems l ++ ']' :: rest) = some (l, rest)) ∧
    (∀ (l : JObj) (rest : List Char), l ≠ .nil → jobjValid l = true → jobjSize l ≤ f →
      parseObjItems f (serObjItems l ++ '}' :: rest) = some (l, rest)) := by
  intro f
  induction f with
  | zero =>
    refine ⟨?_, ?_, ?_⟩
    · intro v rest _ hsz _
      have := jsize_pos v
      omega
    · intro l rest hne _ hsz
      cases l with
      | nil => exact absurd rfl hne
      | cons v t =>
        rw [jarrSize] at hsz
        omega
    · intro l rest hne _ hsz
      cases l with
      | nil => exact absurd rfl hne
      | cons k v t =>
        rw [jobjSize] at hsz
        omega
  | succ f ih =>
    obtain ⟨ihv, iha, iho⟩ := ih
    refine ⟨?_, ?_, ?_⟩
    · intro v rest hval hsz hrest
      cases v with
      | null => simp [serVal, parseVal, expectChars]
      | bool b => cases b <;> simp [serVal, parseVal, expectChars]
      | num m e =>
        obtain ⟨c, cs, hcs, hnum⟩ := serNum_head m e
        have hne := numHead_ne c hnum
        have hshape : serVal (JVal.num m e) ++ rest = c :: (cs ++ rest) := by
          rw [show serVal (JVal.num m e) = serNum m e from rfl, hcs, List.cons_append]
        rw [hshape]
        simp only [parseVal, if_neg hne.1, if_neg hne.2.1, if_neg hne.2.2.1,
          if_neg hne.2.2.2.1, if_neg hne.2.2.2.2.1, if_neg hne.2.2.2.2.2]
        rw [← List.cons_append, ← hcs]
        exact parseNum_serNum m e rest hrest
      | str s =>
        have hshape : serVal (JVal.str s) ++ rest
            = '"' :: (serStrChars s.data ++ '"' :: rest) := by
          simp [serVal, serStr]
        rw [hshape]
        simp only [parseVal]
        simp only [reduceIte]
        rw [parseStrBody_ser s.data rest]
        have hmk : String.mk s.data = s := rfl
        simp [hmk]
      | arr l =>
        cases l with
        | nil =>
          have hshape : serVal (JVal.arr JArr.nil) ++ rest = '[' :: (']' :: rest) := by
            simp [serVal, serArrItems]
          rw [hshape]
          simp [parseVal]
        | cons v t =>
          have hval2 : jarrValid (JArr.cons v t) = true := by
            rw [jvalid] at hval
            exact hval
          have hsz2 : jarrSize (JArr.cons v t) ≤ f := by
            rw [jsize] at hsz
            omega
          have hshape : serVal (JVal.arr (JArr.cons v t)) ++ rest
              = '[' :: (serArrItems (JArr.cons v t) ++ ']' :: rest) := by
            simp [serVal]
          rw [hshape, parseVal.eq_def]
          simp only [Char.reduceEq, reduceIte]
          obtain ⟨tl, htl⟩ := serArrItems_cons_ex v t
          obtain ⟨c, cs, hcs, hc1, hc2⟩ := serVal_head v
          split
          · rename_i rest2 heq
            rw [htl, hcs] at heq
            simp only [List.cons_append, List.cons.injEq] at heq
            exact absurd heq.1 hc1
          · rw [iha (JArr.cons v t) rest (by simp) hval2 hsz2]
            simp
      | obj l =>
        cases l with
        | nil =>
          have hshape : serVal (JVal.obj JObj.nil) ++ rest = '{' :: ('}' :: rest) := by
            simp [serVal, serObjItems]
          rw [hshape]
          simp [parseVal]
        | cons k v t =>
          have hval2 : jobjValid (JObj.cons k v t) = true := by
            rw [jvalid] at hval
            exact hval
          have hsz2 : jobjSize (JObj.cons k v t) ≤ f := by
            rw [jsize] at hsz
            omega
          have hshape : serVal (JVal.obj (JObj.cons k v t)) ++ rest
              = '{' :: (serObjItems (JObj.cons k v t) ++ '}' :: rest) := by
            simp [serVal]
          rw [hshape, parseVal.eq_def]
          simp only [Char.reduceEq, reduceIte]
          obtain ⟨tl, htl⟩ := serObjItems_cons_ex k v t
          split
          · rename_i rest2 heq
            rw [htl] at heq
            simp only [serStr, List.cons_append, List.cons.injEq] at heq
            exact absurd heq.1 (by decide)
          · rw [iho (JObj.cons k v t) rest (by simp) hval2 hsz2]
            simp
    · intro l rest hne hval hsz
      cases l with
      | nil => exact absurd rfl hne
      | cons v t =>
        rw [jarrValid, Bool.and_eq_true] at hval
        rw [jarrSize] at hsz
        cases t with
        | nil =>
          have hshape : serArrItems (JArr.cons v JArr.nil) ++ ']' :: rest
              = serVal v ++ ']' :: rest := by
            simp [serArrItems]
          rw [hshape]
          simp only [parseArrItems]
          rw [ihv v (']' :: rest) hval.1 (by omega)
            (numDelim_cons ']' rest (by decide) (by decide))]
          simp
        | cons v2 t2 =>
          have hshape : serArrItems (JArr.cons v (JArr.cons v2 t2)) ++ ']' :: rest
              = serVal v ++ ',' :: (serArrItems (JArr.cons v2 t2) ++ ']' :: rest) := by
            simp [serArrItems]
          rw [hshape]
          simp only [parseArrItems]
          rw [ihv v (',' :: (serArrItems (JArr.cons v2 t2) ++ ']' :: rest)) hval.1
            (by rw [jarrSize] at hsz; omega)
            (numDelim_cons ',' _ (by decide) (by decide))]
          simp only []
          rw [iha (JArr.cons v2 t2) rest (by simp) hval.2 (by rw [jarrSize] at hsz ⊢; omega)]
          simp
    · intro l rest hne hval hsz
      cases l with
      | nil => exact absurd rfl hne
      | cons k v t =>
        rw [jobjValid, Bool.and_eq_true, Bool.and_eq_true] at hval
        rw [jobjSize] at hsz
        have hmk : String.mk k.data = k := rfl
        cases t with
        | nil =>
          have hshape : serObjItems (JObj.cons k v JObj.nil) ++ '}' :: rest
              = '"' :: (serStrChars k.data ++ '"' :: (':' :: (serVal v ++ '}' :: rest))) := by
            simp [serObjItems, serStr]
          rw [hshape]
          simp only [parseObjItems]
          rw [parseStrBody_ser k.data (':' :: (serVal v ++ '}' :: rest))]
          simp only []
          rw [ihv v ('}' :: rest) hval.1.2 (by omega)
            (numDelim_cons '}' rest (by decide) (by decide))]
          simp [hmk]
        | cons k2 v2 t2 =>
          have hshape : serObjItems (JObj.cons k v (JObj.cons k2 v2 t2)) ++ '}' :: rest
              = '"' :: (serStrChars k.data ++ '"' ::
                (':' :: (serVal v ++ ',' :: (serObjItems (JObj.cons k2 v2 t2) ++ '}' :: rest)))) := by
            simp [serObjItems, serStr]
          rw [hshape]
          simp only [parseObjItems]
          rw [parseStrBody_ser k.data (':' :: (serVal v ++ ',' ::
            (serObjItems (JObj.cons k2 v2 t2) ++ '}' :: rest)))]
          simp only []
          rw [ihv v (',' :: (serObjItems (JObj.cons k2 v2 t2) ++ '}' :: rest)) hval.1.2
            (by omega) (numDelim_cons ',' _ (by decide) (by decide))]
          simp only []
          rw [iho (JObj.cons k2 v2 t2) rest (by simp) hval.2
            (by rw [jobjSize] at hsz ⊢; omega)]
          simp [hmk]

/-- ASCII bytes decode back to the original characters. -/
theorem bytesToChars_strToBytes (l : List Char) (h : ∀ c ∈ l, c.toNat < 128) :
    bytesToChars (strToBytes l) = some l := by
  rw [bytesToChars, strToBytes, if_pos]
  · rw [List.map_map]
    congr 1
    have : ∀ c ∈ l, (Char.ofNat ∘ Char.toNat) c = id c := by
      intro c _
      simp [Char.ofNat_toNat]
    rw [List.map_congr_left this, List.map_id]
  · rw [List.all_eq_true]
    intro b hb
    obtain ⟨c, hc, rfl⟩ := List.mem_map.mp hb
    simpa using h c hc

/-- Unpacking the packed 4-byte header recovers the length. -/
theorem unbe32_be32 (n : Nat) (h : n < 4294967296) :
    unbe32 (n / 16777216 % 256) (n / 65536 % 256) (n / 256 % 256) (n % 256) = n := by
  rw [unbe32]
  omega

/-- C4: for every valid response mapping `r` (printable-ASCII strings,
compact rendering within the 10,000,000-byte frame ceiling), decoding
the bytes produced by encoding `r` — `read_frame` after `write_frame` —
yields exactly the mapping `r` again at the exact frame boundary. -/
theorem frame_roundtrip (r : JVal) (extra : List Nat)
    (hv : jvalid r = true) (hlen : (serVal r).length ≤ 10000000) :
    read_frame (write_frame r ++ extra) = ReadResult.okRes r extra := by
  have hdatalen : (strToBytes (serVal r)).length = (serVal r).length := by
    simp [strToBytes]
  have hsmall : (strToBytes (serVal r)).length < 4294967296 := by omega
  rw [write_frame, be32]
  simp only [List.cons_append, List.nil_append, List.append_assoc]
  rw [read_frame]
  rw [unbe32_be32 _ hsmall]
  rw [if_neg (by
    simp only [Bool.or_eq_true, decide_eq_true_eq]
    omega)]
  rw [if_neg (by
    simp only [List.length_append, Nat.not_lt]
    omega)]
  rw [show (strToBytes (serVal r) ++ extra).take (strToBytes (serVal r)).length
      = strToBytes (serVal r) from List.take_left _ _]
  rw [show (strToBytes (serVal r) ++ extra).drop (strToBytes (serVal r)).length
      = extra from List.drop_left _ _]
  rw [decodeBody, bytesToChars_strToBytes (serVal r) (serVal_ascii r hv)]
  have hparse : parseVal ((serVal r).length + 1) (serVal r) = some (r, []) := by
    have := (parse_ser_fuel ((serVal r).length + 1)).1 r [] hv
      (by have := serVal_size r; omega) numDelim_nil
    rwa [List.append_nil] at this
  simp [hparse]

/-- C5: the declared-length check of `read_frame`.  A 4-byte header
announcing more than 10,000,000 bytes fails with the frame-too-large
error and consumes no body byte (the unread stream is exactly the
stream after the header); a length within `[0, 10,000,000]` passes the
check and exactly `length` body bytes are consumed (the body examined
is `rest.take length` and the unread stream `rest.drop length`). -/
theorem read_frame_length_check (b0 b1 b2 b3 : Nat) (rest : List Nat) :
    (10000000 < unbe32 b0 b1 b2 b3 →
      read_frame (b0 :: b1 :: b2 :: b3 :: rest) =
        ReadResult.errRes "invalid frame length" rest) ∧
    (unbe32 b0 b1 b2 b3 ≤ 10000000 → unbe32 b0 b1 b2 b3 ≤ rest.length →
      read_frame (b0 :: b1 :: b2 :: b3 :: rest) =
        decodeBody (rest.take (unbe32 b0 b1 b2 b3)) (rest.drop (unbe32 b0 b1 b2 b3))) := by
  constructor
  · intro h
    rw [read_frame]
    rw [if_pos (by simp only [Bool.or_eq_true, decide_eq_true_eq]; omega)]
  · intro h1 h2
    rw [read_frame]
    rw [if_neg (by simp only [Bool.or_eq_true, decide_eq_true_eq]; omega)]
    rw [if_neg (by omega)]

/-- Spec-side predicate for C2: the key is present in the store and its
stored value is not JSON `null`. -/
def presentNonNull (s : Store) (k : String) : Bool :=
  match storeLookup s k with
  | some v => !(isNull v)
  | none => false

/-- C2 (amended): `delete` removes the binding if present (the store
becomes `storeErase s key`) and reports `deleted: true` exactly when
the key was present with a value other than `null`; a key stored with
JSON `null` is removed but reported `deleted: false`. -/
theorem delete_spec (s : Store) (key : String) :
    KVStore.delete s key =
      (storeErase s key,
        .obj (.cons "ok" (.bool true)
          (.cons "deleted" (.bool (presentNonNull s key)) .nil))) := by
  rw [KVStore.delete, presentNonNull]
  cases storeLookup s key with
  | none => rfl
  | some v => rfl

/-- C2 counterexample: in the store `{"a": null}` the key `"a"` is
present, yet `delete "a"` reports `deleted: false` (while still
removing the binding) — refuting that `deleted` is true iff the key
is present regardless of the stored value. -/
theorem delete_null_countereg :
    storeLookup [("a", JVal.null)] "a" = some JVal.null ∧
    KVStore.delete [("a", JVal.null)] "a" =
      ([], .obj (.cons "ok" (.bool true) (.cons "deleted" (.bool false) .nil))) :=
  ⟨rfl, rfl⟩

/-- C7: executing `clear` and then `keys` yields `{ok:true, keys:[]}`
— an empty key list regardless of the prior store contents. -/
theorem clear_then_keys (s : Store) :
    KVStore.keys (KVStore.clear s).1 =
      .obj (.cons "ok" (.bool true) (.cons "keys" (.arr .nil) .nil)) := rfl

/-- Looking past a head field with a different name. -/
theorem jGet_cons_ne (k0 : String) (v : JVal) (fields : JObj) (key : String)
    (h : k0 ≠ key) : jGet (.cons k0 v fields) key = jGet fields key := by
  rw [jGet, if_neg h]

/-- Membership past a head field with a different name. -/
theorem jHasKey_cons_ne (k0 : String) (v : JVal) (fields : JObj) (key : String)
    (h : k0 ≠ key) : jHasKey (.cons k0 v fields) key = jHasKey fields key := by
  rw [jHasKey, if_neg h]

/-- No command handler looks up the key `"cmd"`, so the head `cmd`
binding is invisible to the command chain. -/
theorem dispatchCmd_cons_cmd (store : Store) (v : JVal) (fields : JObj) (cmd : String) :
    dispatchCmd store (.cons "cmd" v fields) cmd = dispatchCmd store fields cmd := by
  simp only [dispatchCmd, loanBody, getOrNone,
    jGet_cons_ne "cmd" v fields "key" (by decide),
    jGet_cons_ne "cmd" v fields "value" (by decide),
    jGet_cons_ne "cmd" v fields "username" (by decide),
    jGet_cons_ne "cmd" v fields "loan_amount" (by decide),
    jGet_cons_ne "cmd" v fields "years" (by decide),
    jGet_cons_ne "cmd" v fields "annual_rate" (by decide),
    jHasKey_cons_ne "cmd" v fields "value" (by decide)]

/-- The dispatch step on a request whose `cmd` field is the string `c`
reduces to the command chain at `pyUpper c` (also when `c` is empty,
since `"" or ""` is `""`). -/
theorem dispatch_obj_cmd_str (store : Store) (fields : JObj) (c : String) :
    dispatch store (.obj (.cons "cmd" (.str c) fields)) =
      dispatchCmd store (.cons "cmd" (.str c) fields) (pyUpper c) := by
  rw [dispatch]
  have hget : getOrNone (JObj.cons "cmd" (JVal.str c) fields) "cmd" = JVal.str c := by
    rw [getOrNone, jGet, if_pos rfl]
  rw [hget]
  by_cases hc : c = ""
  · subst hc
    simp [truthy]
  · simp [truthy, hc]

/-- C9: dispatch is case-insensitive in the `cmd` value: two requests
identical except for the letter case of their `cmd` field produce the
same outcome (same response and same store effect). -/
theorem dispatch_cmd_case_insensitive (store : Store) (fields : JObj) (c1 c2 : String)
    (h : pyUpper c1 = pyUpper c2) :
    dispatch store (.obj (.cons "cmd" (.str c1) fields)) =
      dispatch store (.obj (.cons "cmd" (.str c2) fields)) := by
  rw [dispatch_obj_cmd_str, dispatch_obj_cmd_str, dispatchCmd_cons_cmd,
    dispatchCmd_cons_cmd, h]

/-- C9 witness: `"ping"` and `"PING"` give the same result on the
empty store. -/
theorem dispatch_cmd_case_insensitive_witness :
    pyUpper "ping" = pyUpper "PING" ∧
    dispatch [] (.obj (.cons "cmd" (.str "ping") .nil)) =
      dispatch [] (.obj (.cons "cmd" (.str "PING") .nil)) :=
  ⟨rfl, dispatch_cmd_case_insensitive [] .nil "ping" "PING" rfl⟩

/-- After `storeSet`, looking up the same key finds the new value. -/
theorem storeLookup_storeSet (s : Store) (k : String) (v : JVal) :
    storeLookup (storeSet s k v) k = some v := by
  induction s with
  | nil => rw [storeSet, storeLookup, if_pos rfl]
  | cons p rest ih =>
    obtain ⟨k0, v0⟩ := p
    by_cases h : k0 = k
    · rw [storeSet, if_pos h, storeLookup, if_pos rfl]
    · rw [storeSet, if_neg h, storeLookup, if_neg h, ih]

/-- C10: the `SET` and `GET` handlers coerce the request's `key` field
through Python `str` before touching the store (every stored key is a
string), so for every non-null key value `k` — not necessarily a JSON
string — `SET` with key `k` stores the value under the string
`pyStr k` and a subsequent `GET` with the same key `k` returns the
value just set. -/
theorem set_then_get (store : Store) (k v : JVal) (rest1 rest2 : JObj)
    (hk : isNull k = false) :
    dispatch store (.obj (.cons "cmd" (.str "SET")
        (.cons "key" k (.cons "value" v rest1)))) =
      .ok (storeSet store (pyStr k) v, okResp) ∧
    dispatch (storeSet store (pyStr k) v)
        (.obj (.cons "cmd" (.str "GET") (.cons "key" k rest2))) =
      .ok (storeSet store (pyStr k) v,
        .obj (.cons "ok" (.bool true) (.cons "value" v .nil))) := by
  constructor
  · rw [dispatch_obj_cmd_str]
    rw [show pyUpper "SET" = "SET" from rfl]
    simp only [dispatchCmd, String.reduceEq, reduceIte, getOrNone, jGet, jHasKey,
      Char.reduceEq]
    simp only [hk]
    simp [KVStore.set]
  · rw [dispatch_obj_cmd_str]
    rw [show pyUpper "GET" = "GET" from rfl]
    simp only [dispatchCmd, String.reduceEq, reduceIte, getOrNone, jGet, jHasKey,
      Char.reduceEq]
    simp only [hk]
    simp [KVStore.get, storeLookup_storeSet]

/-- C8: if the handler loop runs through the outcomes `pre` without
breaking and the next read outcome is an idle timeout, then the
connection's trace is exactly the trace of `pre` followed by one
`{ok:false, error:"idle timeout"}` response and one timeout log
record; the result does not depend on `post` — the loop has broken to
the closing `finally:`, so no further response is ever sent on the
connection. -/
theorem handler_timeout_once (s : Store) (pre post : List ReadOutcome)
    (h : runsThrough s pre = true) :
    runHandler s (pre ++ ReadOutcome.timeout :: post) =
      ((runHandler s pre).1,
        (runHandler s pre).2.1 ++ [timeoutResp],
        (runHandler s pre).2.2 ++ [LogEvent.timeoutEvt timeoutResp]) := by
  induction pre generalizing s with
  | nil => simp [runHandler]
  | cons o rest ih =>
    cases o with
    | timeout =>
      rw [runsThrough] at h
      exact absurd h (by decide)
    | closed =>
      rw [runsThrough] at h
      exact absurd h (by decide)
    | readErr m =>
      rw [runsThrough] at h
      simp only [List.cons_append, runHandler, List.append_eq, ih s h]
    | got req =>
      rw [runsThrough] at h
      cases hd : dispatch s req with
      | error e =>
        rw [hd] at h
        exact Bool.noConfusion h
      | ok p =>
        obtain ⟨s2, resp⟩ := p
        rw [hd] at h
        have h2 : runsThrough s2 rest = true := h
        simp only [List.cons_append, runHandler, hd, List.append_eq, ih s2 h2]

/-- C8 witness: after one dispatched `PING`, a timeout produces exactly
the one timeout response and log record, with a further outcome after
the timeout ignored. -/
theorem handler_timeout_once_witness :
    runsThrough [] [ReadOutcome.got (.obj (.cons "cmd" (.str "PING") .nil))] = true ∧
    runHandler [] ([ReadOutcome.got (.obj (.cons "cmd" (.str "PING") .nil))] ++
        ReadOutcome.timeout :: [ReadOutcome.closed]) =
      ((runHandler [] [ReadOutcome.got (.obj (.cons "cmd" (.str "PING") .nil))]).1,
        (runHandler [] [ReadOutcome.got (.obj (.cons "cmd" (.str "PING") .nil))]).2.1 ++
          [timeoutResp],
        (runHandler [] [ReadOutcome.got (.obj (.cons "cmd" (.str "PING") .nil))]).2.2 ++
          [LogEvent.timeoutEvt timeoutResp]) :=
  ⟨rfl, handler_timeout_once [] _ _ rfl⟩

/-- A key reported by `jHasKey` has a value under `jGet`. -/
theorem jGet_isSome_of_hasKey (fields : JObj) (k : String) (h : jHasKey fields k = true) :
    ∃ v, jGet fields k = some v := by
  cases fields with
  | nil =>
    rw [jHasKey] at h
    exact Bool.noConfusion h
  | cons k0 v0 rest =>
    by_cases hk : k0 = k
    · exact ⟨v0, by rw [jGet, if_pos hk]⟩
    · rw [jHasKey, if_neg hk] at h
      obtain ⟨v, hv⟩ := jGet_isSome_of_hasKey rest k h
      exact ⟨v, by rw [jGet, if_neg hk, hv]⟩

/-- The command chain itself never raises: every branch of
`dispatchCmd` produces a response (the `KeyError` of `req["value"]` is
unreachable behind the membership guard). -/
theorem dispatchCmd_total (store : Store) (fields : JObj) (cmd : String) :
    ∃ p, dispatchCmd store fields cmd = Except.ok p := by
  by_cases h1 : cmd = "PING"
  · exact ⟨_, by simp only [dispatchCmd]; rw [if_pos h1]⟩
  by_cases h2 : cmd = "LOAN"
  · exact ⟨_, by simp only [dispatchCmd]; rw [if_neg h1, if_pos h2]⟩
  by_cases h3 : cmd = "SET"
  · by_cases hkey : (isNull (getOrNone fields "key") || !(jHasKey fields "value")) = true
    · exact ⟨_, by simp only [dispatchCmd]; rw [if_neg h1, if_neg h2, if_pos h3, if_pos hkey]⟩
    · have hhas : jHasKey fields "value" = true := by
        simp only [Bool.or_eq_true, Bool.not_eq_eq_eq_not, Bool.not_true] at hkey
        rcases Bool.eq_false_or_eq_true (jHasKey fields "value") with ht | hf
        · exact ht
        · exact absurd (Or.inr hf) hkey
      obtain ⟨v, hv⟩ := jGet_isSome_of_hasKey fields "value" hhas
      exact ⟨_, by
        simp only [dispatchCmd]
        rw [if_neg h1, if_neg h2, if_pos h3, if_neg hkey, hv]⟩
  by_cases h4 : cmd = "GET"
  · by_cases hkey : isNull (getOrNone fields "key") = true
    · exact ⟨_, by
        simp only [dispatchCmd]
        rw [if_neg h1, if_neg h2, if_neg h3, if_pos h4, if_pos hkey]⟩
    · exact ⟨_, by
        simp only [dispatchCmd]
        rw [if_neg h1, if_neg h2, if_neg h3, if_pos h4, if_neg hkey]⟩
  by_cases h5 : cmd = "DEL"
  · by_cases hkey : isNull (getOrNone fields "key") = true
    · exact ⟨_, by
        simp only [dispatchCmd]
        rw [if_neg h1, if_neg h2, if_neg h3, if_neg h4, if_pos h5, if_pos hkey]⟩
    · exact ⟨_, by
        simp only [dispatchCmd]
        rw [if_neg h1, if_neg h2, if_neg h3, if_neg h4, if_pos h5, if_neg hkey]⟩
  by_cases h6 : cmd = "KEYS"
  · exact ⟨_, by
      simp only [dispatchCmd]
      rw [if_neg h1, if_neg h2, if_neg h3, if_neg h4, if_neg h5, if_pos h6]⟩
  by_cases h7 : cmd = "CLEAR"
  · exact ⟨_, by
      simp only [dispatchCmd]
      rw [if_neg h1, if_neg h2, if_neg h3, if_neg h4, if_neg h5, if_neg h6, if_pos h7]⟩
  · exact ⟨_, by
      simp only [dispatchCmd]
      rw [if_neg h1, if_neg h2, if_neg h3, if_neg h4, if_neg h5, if_neg h6, if_neg h7]⟩

/-- Requests on which the dispatch step cannot raise: the payload is a
JSON object and its `cmd` field (if present) is falsy or a string. -/
def safeReq (req : JVal) : Prop :=
  ∃ fields, req = JVal.obj fields ∧
    (match jGet fields "cmd" with
     | none => True
     | some v => truthy v = false ∨ ∃ s, v = JVal.str s)

/-- C1 (amended): for every decoded request in the safe class — a JSON
object whose `cmd` field is absent, falsy, or a string — the dispatch
step always produces a response and never raises.  Outside this class
(a non-object payload, or a truthy non-string `cmd`) the
`AttributeError` of `req.get` / `.upper()` propagates uncaught past
the dispatcher, as the counterexample shows. -/
theorem dispatch_total (store : Store) (req : JVal) (h : safeReq req) :
    ∃ p, dispatch store req = Except.ok p := by
  obtain ⟨fields, rfl, hcmd⟩ := h
  have hstr : ∃ s0, (if truthy (getOrNone fields "cmd") then getOrNone fields "cmd"
      else JVal.str "") = JVal.str s0 := by
    cases hj : jGet fields "cmd" with
    | none =>
      have hg : getOrNone fields "cmd" = JVal.null := by rw [getOrNone, hj]
      exact ⟨"", by rw [hg]; rfl⟩
    | some v =>
      rw [hj] at hcmd
      have hg : getOrNone fields "cmd" = v := by rw [getOrNone, hj]
      rcases hcmd with hf | ⟨s, rfl⟩
      · exact ⟨"", by rw [hg, hf]; rfl⟩
      · by_cases hs : truthy (JVal.str s) = true
        · exact ⟨s, by rw [hg, hs]; rfl⟩
        · refine ⟨"", by rw [hg]; rw [Bool.not_eq_true] at hs; rw [hs]; rfl⟩
  obtain ⟨s0, hs0⟩ := hstr
  obtain ⟨p, hp⟩ := dispatchCmd_total store fields (pyUpper s0)
  refine ⟨p, ?_⟩
  rw [dispatch, hs0]
  exact hp

/-- C1 counterexample: a decoded request whose JSON payload is a list,
not an object, makes the dispatch step raise `AttributeError` uncaught
(`Except.error`, the exception escaping the dispatcher): no
`{ok:false, error:...}` response is produced and the `finally:` block
closes the connection. -/
theorem dispatch_raises_on_nonobject :
    dispatch [] (JVal.arr JArr.nil) =
      Except.error "'list' object has no attribute 'get'" := rfl

/-- C1 witness: a `PING` request is in the safe class and dispatch on
it produces a response. -/
theorem dispatch_total_witness :
    safeReq (JVal.obj (JObj.cons "cmd" (JVal.str "PING") JObj.nil)) ∧
    ∃ p, dispatch [] (JVal.obj (JObj.cons "cmd" (JVal.str "PING") JObj.nil)) =
      Except.ok p :=
  ⟨⟨JObj.cons "cmd" (JVal.str "PING") JObj.nil, rfl, Or.inr ⟨"PING", rfl⟩⟩,
    dispatch_total [] _ ⟨JObj.cons "cmd" (JVal.str "PING") JObj.nil, rfl,
      Or.inr ⟨"PING", rfl⟩⟩⟩

/-- The standard fixed-rate amortization formula for the monthly
payment as the spec states it — `P·(r·(1+r)^n)/((1+r)^n − 1)` for
monthly rate `r` over `n` monthly periods — written independently of
the code's algebraic arrangement. -/
def stdMonthlyPayment (principal : ℚ) (n : Int) (r : ℚ) : ℚ :=
  principal * (r * (1 + r) ^ n) / ((1 + r) ^ n - 1)

/-- C6: with a zero annual rate `calculate_payments` degenerates to
simple division of the principal by the number of monthly periods
(`years × 12`), the total being that monthly payment times the period
count, both rounded to two decimals; with a nonzero rate (and
non-degenerate denominators) it computes exactly the standard
amortization formula, both outputs rounded to two decimals. -/
theorem calculate_payments_spec (loan : ℚ) (years : Int) (rate : ℚ) :
    (rate = 0 → years ≠ 0 →
      calculate_payments loan years rate =
        .ok (round2 (loan / ((years * 12 : Int) : ℚ)),
          round2 (loan / ((years * 12 : Int) : ℚ) * ((years * 12 : Int) : ℚ)))) ∧
    (rate ≠ 0 → (1 : ℚ) + rate / 100 / 12 ≠ 0 →
      ((1 : ℚ) + rate / 100 / 12) ^ (years * 12) ≠ 1 →
      calculate_payments loan years rate =
        .ok (round2 (stdMonthlyPayment loan (years * 12) (rate / 100 / 12)),
          round2 (stdMonthlyPayment loan (years * 12) (rate / 100 / 12) *
            ((years * 12 : Int) : ℚ)))) := by
  constructor
  · intro h0 hy
    subst h0
    have h12 : (years * 12 : Int) ≠ 0 := mul_ne_zero hy (by norm_num)
    simp only [calculate_payments]
    rw [if_pos (by norm_num)]
    rw [if_neg (Int.cast_ne_zero.mpr h12)]
  · intro hr h1 h2
    have hmr : rate / 100 / 12 ≠ 0 := by
      intro h
      apply hr
      field_simp at h
      exact h
    have ha : ((1 : ℚ) + rate / 100 / 12) ^ (years * 12) ≠ 0 := zpow_ne_zero _ h1
    have hd : (1 : ℚ) - (1 / (1 + rate / 100 / 12)) ^ (years * 12) ≠ 0 := by
      rw [one_div, inv_zpow]
      intro h
      apply h2
      have h3 : (((1 : ℚ) + rate / 100 / 12) ^ (years * 12))⁻¹ = 1 := by
        have := sub_eq_zero.mp h
        rw [← this]
      rw [← inv_inv (((1 : ℚ) + rate / 100 / 12) ^ (years * 12)), h3]
      norm_num
    have hmp : loan * (rate / 100 / 12) /
          ((1 : ℚ) - (1 / (1 + rate / 100 / 12)) ^ (years * 12))
        = stdMonthlyPayment loan (years * 12) (rate / 100 / 12) := by
      rw [stdMonthlyPayment, one_div, inv_zpow]
      rw [div_eq_div_iff (by rwa [← inv_zpow, ← one_div]) (sub_ne_zero.mpr h2)]
      linear_combination (loan * (rate / 100 / 12)) * mul_inv_cancel₀ ha
    simp only [calculate_payments]
    rw [if_neg hmr, if_neg h1, if_neg hd, hmp]

/-- C6 witness: at `loan = 1200, years = 1, rate = 0` the zero-rate
branch applies. -/
theorem calculate_payments_spec_witness :
    calculate_payments 1200 1 0 =
      .ok (round2 ((1200 : ℚ) / ((1 * 12 : Int) : ℚ)),
        round2 ((1200 : ℚ) / ((1 * 12 : Int) : ℚ) * ((1 * 12 : Int) : ℚ))) :=
  (calculate_payments_spec 1200 1 0).1 rfl (by decide)

/-- C3 (amended): the `LOAN` fields read by direct indexing —
`loan_amount`, `years`, `annual_rate` — are the required ones: a
`LOAN` request missing any of them gets an `{ok:false, error:...}`
response (a `missing field: '…'` message, or the stringified exception
of an earlier conversion) and the store is untouched.  `username` is
read with `req.get("username") or ""` and is NOT required (see the
counterexample). -/
theorem loan_missing_required_field (store : Store) (fields : JObj)
    (h : jGet fields "loan_amount" = none ∨ jGet fields "years" = none ∨
      jGet fields "annual_rate" = none) :
    ∃ msg, dispatch store (.obj (.cons "cmd" (.str "LOAN") fields)) =
      .ok (store, errResp msg) := by
  rw [dispatch_obj_cmd_str]
  rw [show pyUpper "LOAN" = "LOAN" from rfl]
  rw [dispatchCmd_cons_cmd]
  have hred : dispatchCmd store fields "LOAN" = .ok (store, loanBody fields) := by
    simp only [dispatchCmd, String.reduceEq, reduceIte]
  rw [hred]
  rcases h with h | h | h
  · exact ⟨"missing field: 'loan_amount'", by simp only [loanBody, h]⟩
  · cases hla : jGet fields "loan_amount" with
    | none => exact ⟨"missing field: 'loan_amount'", by simp only [loanBody, hla]⟩
    | some la =>
      cases hf : pyFloat la with
      | error e => exact ⟨e, by simp only [loanBody, hla, hf]⟩
      | ok q => exact ⟨"missing field: 'years'", by simp only [loanBody, hla, hf, h]⟩
  · cases hla : jGet fields "loan_amount" with
    | none => exact ⟨"missing field: 'loan_amount'", by simp only [loanBody, hla]⟩
    | some la =>
      cases hf : pyFloat la with
      | error e => exact ⟨e, by simp only [loanBody, hla, hf]⟩
      | ok q =>
        cases hy : jGet fields "years" with
        | none => exact ⟨"missing field: 'years'", by simp only [loanBody, hla, hf, hy]⟩
        | some ys =>
          cases hi : pyInt ys with
          | error e => exact ⟨e, by simp only [loanBody, hla, hf, hy, hi]⟩
          | ok yi =>
            exact ⟨"missing field: 'annual_rate'", by simp only [loanBody, hla, hf, hy, hi, h]⟩

/-- C3 witness: a `LOAN` request carrying only a `cmd` gets the
missing-field error for `loan_amount`. -/
theorem loan_missing_required_field_witness :
    jGet JObj.nil "loan_amount" = none ∧
    ∃ msg, dispatch [] (.obj (.cons "cmd" (.str "LOAN") JObj.nil)) =
      .ok ([], errResp msg) :=
  ⟨rfl, loan_missing_required_field [] JObj.nil (Or.inl rfl)⟩

/-- Rounding an integer-valued rational is the identity. -/
theorem roundHalfEven_intCast (k : Int) : roundHalfEven (k : ℚ) = k := by
  simp only [roundHalfEven, Int.floor_intCast, sub_self]
  rw [if_pos (by norm_num)]

/-- Rounding to two decimals fixes integer-valued rationals. -/
theorem round2_intCast (k : Int) : round2 (k : ℚ) = (k : ℚ) := by
  rw [round2]
  rw [show ((k : ℚ)) * 100 = ((k * 100 : Int) : ℚ) by push_cast; ring]
  rw [roundHalfEven_intCast]
  push_cast
  field_simp

/-- Fields of the C3 counterexample request: `loan_amount`, `years`
and `annual_rate` present, no `username` field. -/
def loanFieldsNoUser : JObj :=
  .cons "loan_amount" (.num 1200 0)
    (.cons "years" (.num 1 0) (.cons "annual_rate" (.num 0 0) .nil))

/-- The C3 counterexample request: `{"cmd": "LOAN", "loan_amount":
1200, "years": 1, "annual_rate": 0}` — no `username`. -/
def loanReqNoUser : JVal := .obj (.cons "cmd" (.str "LOAN") loanFieldsNoUser)

/-- `calculate_payments` at the counterexample input. -/
theorem calc_payments_noUser : calculate_payments 1200 1 0 = .ok (100, 1200) := by
  simp only [calculate_payments]
  rw [if_pos (by norm_num)]
  rw [if_neg (by norm_num)]
  rw [show (((1 * 12 : Int) : ℚ)) = 12 by norm_num]
  rw [show (1200 : ℚ) / 12 = ((100 : Int) : ℚ) by norm_num]
  rw [show ((100 : Int) : ℚ) * 12 = ((1200 : Int) : ℚ) by norm_num]
  rw [round2_intCast, round2_intCast]
  norm_num

/-- The `LOAN` body at the counterexample fields evaluates to a
success response. -/
theorem loanBody_noUser : loanBody loanFieldsNoUser =
    .obj (.cons "ok" (.bool true)
      (.cons "monthly_payment" (.num 10000 2)
        (.cons "total_payment" (.num 120000 2) .nil))) := by
  have hget1 : jGet loanFieldsNoUser "loan_amount" = some (.num 1200 0) := by
    simp [loanFieldsNoUser, jGet]
  have hget2 : jGet loanFieldsNoUser "years" = some (.num 1 0) := by
    simp [loanFieldsNoUser, jGet]
  have hget3 : jGet loanFieldsNoUser "annual_rate" = some (.num 0 0) := by
    simp [loanFieldsNoUser, jGet]
  have hf1 : pyFloat (JVal.num 1200 0) = .ok 1200 := by
    norm_num [pyFloat, qOfNum]
  have hi : pyInt (JVal.num 1 0) = .ok 1 := by
    norm_num [pyInt, truncDec]
  have hf2 : pyFloat (JVal.num 0 0) = .ok 0 := by
    norm_num [pyFloat, qOfNum]
  simp only [loanBody, hget1, hget2, hget3, hf1, hi, hf2, calc_payments_noUser]
  rw [show jOfQ2 100 = JVal.num 10000 2 from by rw [jOfQ2]; norm_num,
    show jOfQ2 1200 = JVal.num 120000 2 from by rw [jOfQ2]; norm_num]

/-- C3 counterexample: the `LOAN` request with `loan_amount`, `years`
and `annual_rate` present but NO `username` field SUCCEEDS with
`{ok:true, monthly_payment: 100.00, total_payment: 1200.00}` —
refuting the claim that a `LOAN` request without `username` fails.
(`username` is read with `req.get(...) or ""`, which never raises.) -/
theorem loan_without_username_succeeds :
    dispatch [] loanReqNoUser =
      .ok ([], .obj (.cons "ok" (.bool true)
        (.cons "monthly_payment" (.num 10000 2)
          (.cons "total_payment" (.num 120000 2) .nil)))) := by
  rw [show loanReqNoUser = JVal.obj (.cons "cmd" (.str "LOAN") loanFieldsNoUser) from rfl]
  rw [dispatch_obj_cmd_str, show pyUpper "LOAN" = "LOAN" from rfl, dispatchCmd_cons_cmd]
  rw [show dispatchCmd [] loanFieldsNoUser "LOAN" =
      Except.ok ([], loanBody loanFieldsNoUser) from by
    simp only [dispatchCmd, String.reduceEq, reduceIte]]
  rw [loanBody_noUser]

/-- C4 witness: the `{"ok":true}` response round-trips through the
frame codec. -/
theorem frame_roundtrip_witness :
    jvalid okResp = true ∧ (serVal okResp).length ≤ 10000000 ∧
    read_frame (write_frame okResp ++ []) = ReadResult.okRes okResp [] :=
  ⟨by decide, by decide, frame_roundtrip okResp [] (by decide) (by decide)⟩

/-- C5 witness: a header announcing 10,000,001 bytes is rejected
without consuming the (empty) remainder. -/
theorem read_frame_length_check_witness :
    10000000 < unbe32 0 152 150 129 ∧
    read_frame (0 :: 152 :: 150 :: 129 :: ([] : List Nat)) =
      ReadResult.errRes "invalid frame length" [] :=
  ⟨by norm_num [unbe32],
    (read_frame_length_check 0 152 150 129 []).1 (by norm_num [unbe32])⟩

/-- C10 witness: `SET` with the non-string key `5` followed by `GET`
with key `5` returns the value just set. -/
theorem set_then_get_witness :
    isNull (JVal.num 5 0) = false ∧
    (dispatch [] (.obj (.cons "cmd" (.str "SET")
        (.cons "key" (.num 5 0) (.cons "value" (.str "x") .nil)))) =
      .ok (storeSet [] (pyStr (.num 5 0)) (.str "x"), okResp) ∧
      dispatch (storeSet [] (pyStr (.num 5 0)) (.str "x"))
        (.obj (.cons "cmd" (.str "GET") (.cons "key" (.num 5 0) .nil))) =
      .ok (storeSet [] (pyStr (.num 5 0)) (.str "x"),
        .obj (.cons "ok" (.bool true) (.cons "value" (.str "x") .nil)))) :=
  ⟨rfl, set_then_get [] (.num 5 0) (.str "x") .nil .nil rfl⟩
